import Mathlib

/-!
Verification development for the Cupid/Roombot referral-economy bot.

The definitions below are a shallow embedding of the Python source:
the monolithic implementation in `roombot.py` and, where a claim cites
them, the modularised implementations in `user_manager.py`,
`message_handlers.py`, `callbacks.py` and `invite_manager.py`.
Currency amounts and timestamps are modelled as rationals (every value
the claims touch is dyadic, so float arithmetic in the source is exact
on them); account ids are naturals.
-/

namespace Roombot

/-! ## Constants (roombot.py lines 34-55, config.py) -/

def VERIFICATION_TIMEOUT : ℚ := 300
def WAGER_EXPIRY : ℚ := 60
def BLACKLIST_DURATION : ℚ := 86400
def INVITE_BASE_POINTS : ℚ := 1
def LEVEL_XP_REQUIRED : ℕ := 100
def STREAK_BONUS_MULTIPLIER : ℚ := 1/10
def HEAT_DECAY_HOURS : ℚ := 24
def MILESTONE_ANNOUNCES : List ℕ := [10, 25, 50, 100, 250, 500, 1000]

/-- Python `round(x, 2)`: round to two decimal places.  Mathlib `round`
rounds half away from even whereas Python uses banker's rounding, but no
value appearing in the claims sits at a half-hundredth tie. -/
def round2 (q : ℚ) : ℚ := (round (q * 100) : ℚ) / 100

/-! ## Leveling (roombot.py `calculate_level_xp`, `check_level_up`) -/

/-- `calculate_level_xp` (roombot.py 167-169): XP required to leave `level`;
`//` is Python floor division, `/` on ℕ below is the same. -/
def calculate_level_xp (level : ℕ) : ℕ :=
  LEVEL_XP_REQUIRED * level * (1 + level / 10)

/-- The XP/level slice of a user record. -/
structure LevelXp where
  level : ℕ
  xp : ℕ
deriving DecidableEq, Repr

/-- `check_level_up` (roombot.py 189-202): a single `if`, not a loop —
consumes at most one threshold per call and reports whether it did. -/
def check_level_up (u : LevelXp) : LevelXp × Bool :=
  let required := calculate_level_xp u.level
  if u.xp ≥ required then
    (⟨u.level + 1, u.xp - required⟩, true)
  else
    (u, false)

/-! ## Heat score (roombot.py `calculate_heat_score`, 205-222) -/

/-- `calculate_heat_score`: `last_success` is the stored
`last_invite_success` (defaulting to 0 when no invite ever succeeded),
`invites_successful` the lifetime counter. -/
def calculate_heat_score (invites_successful : ℕ) (last_success now : ℚ) : ℚ :=
  let hours_since := (now - last_success) / 3600
  if hours_since > HEAT_DECAY_HOURS then 0
  else round2 (invites_successful * ((HEAT_DECAY_HOURS - hours_since) / HEAT_DECAY_HOURS))

/-! ## Invite streak (roombot.py `update_invite_streak`, 344-357;
message_handlers.py `_process_successful_invite`, 169-180) -/

/-- `update_invite_streak` (roombot.py): returns the new
`(invite_streak, last_invite_success)` pair. -/
def update_invite_streak (streak : ℕ) (last_success now : ℚ) : ℕ × ℚ :=
  if now - last_success < 86400 then (streak + 1, now) else (1, now)

/-- The streak update inlined in `message_handlers._process_successful_invite`
(modular implementation): unconditional increment, no 24-hour window check,
then `last_invite_success = time.time()`. -/
def modular_process_streak (streak : ℕ) (now : ℚ) : ℕ × ℚ :=
  (streak + 1, now)

/-! ## Cascade rewards (roombot.py `award_points`, `award_points_cascade`,
388-417) -/

/-- One balance credit, as performed by `award_points`. -/
def creditBal (bal : ℕ → ℚ) (a : ℕ) (p : ℚ) : ℕ → ℚ :=
  fun x => if x = a then bal x + p else bal x

/-- Apply a list of `(recipient, amount)` credits in order. -/
def applyCredits (bal : ℕ → ℚ) : List (ℕ × ℚ) → (ℕ → ℚ)
  | [] => bal
  | (a, p) :: rest => applyCredits (creditBal bal a p) rest

/-- The `while` loop of `award_points_cascade`, as the list of credits it
performs.  `fuel` is `10 - depth`: the loop guard is
`current_points >= 0.01 and depth < 10`, the parent lookup happens after
each credit, and a missing parent breaks the loop. -/
def cascadeCredits (parent : ℕ → Option ℕ) : ℕ → ℚ → ℕ → List (ℕ × ℚ)
  | _, _, 0 => []
  | cur, pts, fuel + 1 =>
    if pts ≥ 1/100 then
      (cur, pts) ::
        (match parent cur with
         | some p => cascadeCredits parent p (pts / 2) fuel
         | none => [])
    else []

/-- `award_points_cascade` (roombot.py 396-417): applies the streak bonus
`1 + invite_streak * STREAK_BONUS_MULTIPLIER` to the base amount (only the
direct inviter's hop carries it — upward hops use the already-halved
amount), then walks the parent chain with depth cap 10. -/
def award_points_cascade (parent : ℕ → Option ℕ) (streak : ℕ) (root : ℕ)
    (base : ℚ) : List (ℕ × ℚ) :=
  cascadeCredits parent root (base * (1 + streak * STREAK_BONUS_MULTIPLIER)) 10

/-- `handle_new_member`'s successful-invite path (roombot.py 1302-1317):
`update_invite_streak` runs first, so the cascade's streak bonus reads the
updated streak.  Returns the new `(streak, last_invite_success)` pair and
the cascade's credit list. -/
def process_successful_invite (parent : ℕ → Option ℕ) (streak : ℕ)
    (last_success now : ℚ) (root : ℕ) (base : ℚ) :
    (ℕ × ℚ) × List (ℕ × ℚ) :=
  let upd := update_invite_streak streak last_success now
  (upd, award_points_cascade parent upd.1 root base)

/-! ## Modular cascade crediting (message_handlers.py
`_award_cascade_points` 203-234; user_manager.py `award_points` 81-95).
The modular walk computes the same per-hop amounts as the monolithic one,
but stores them through `UserManager.award_points`, whose database write
is `update_user_points(telegram_id, int(new_points))`. -/

/-- Python `int()` on a float/rational: truncation toward zero. -/
def pyInt (q : ℚ) : ℤ := if 0 ≤ q then ⌊q⌋ else -⌊-q⌋

/-- `UserManager.award_points`: returns the balance map unchanged when the
recipient has no session-cache entry (the early `return False`), and
otherwise stores `int(current + points)` in the integer `points` column. -/
def modular_award_points (bal : ℕ → ℤ) (hasSession : ℕ → Bool) (a : ℕ)
    (p : ℚ) : ℕ → ℤ :=
  fun x =>
    if x = a then
      (if hasSession a then pyInt ((bal a : ℚ) + p) else bal a)
    else bal x

/-- Apply a list of cascade credits through `UserManager.award_points`, as
`_award_cascade_points` does one hop at a time. -/
def applyModularCredits (bal : ℕ → ℤ) (hasSession : ℕ → Bool) :
    List (ℕ × ℚ) → (ℕ → ℤ)
  | [] => bal
  | (a, p) :: rest =>
    applyModularCredits (modular_award_points bal hasSession a p) hasSession rest

/-! ## Milestones (roombot.py `check_milestones`, 360-385, and
`init_user`, 124-156) -/

/-- The loop body of `check_milestones` for one threshold `m`: append it
to the stored set and the emitted list when it is met and not yet
recorded. -/
def milestoneStep (successful : ℕ) (acc : List ℕ × List ℕ) (m : ℕ) :
    List ℕ × List ℕ :=
  if successful ≥ m ∧ m ∉ acc.1 then (acc.1 ++ [m], acc.2 ++ [m]) else acc

/-- `check_milestones` (roombot.py 360-385), given the stored
`milestones_reached` list: fold over `MILESTONE_ANNOUNCES`, returning the
updated stored list and the list of newly emitted milestones. -/
def check_milestones_fold (successful : ℕ) (reached : List ℕ) :
    List ℕ × List ℕ :=
  MILESTONE_ANNOUNCES.foldl (milestoneStep successful) (reached, [])

/-- The keys `init_user` (roombot.py 124-156) writes into a fresh user
record.  Note the absence of `milestones_reached`. -/
def initUserKeys : List String :=
  ["lover_points", "xp", "level",
   "invite_code", "invites_sent", "invites_successful",
   "last_invite_time", "last_message_xp", "last_daily_bonus",
   "blacklisted_until", "verification_attempts",
   "messages_sent", "days_active", "last_active", "loveliness_score",
   "wagers_won", "wagers_lost", "total_points_earned", "total_points_spent"]

/-- A fresh `init_user` record has no `milestones_reached` entry. -/
def init_user_milestones_field : Option (List ℕ) := none

/-- One loop iteration of `check_milestones` as run on a user record
whose `milestones_reached` entry may be absent.  Python's
`successful >= milestone and milestone not in user["milestones_reached"]`
short-circuits: the subscript — and hence the `KeyError` when the key is
absent — is evaluated only when `successful >= milestone` holds; an
earlier `KeyError` aborts the loop. -/
def milestoneStepRun (successful : ℕ)
    (acc : Except String (Option (List ℕ) × List ℕ)) (m : ℕ) :
    Except String (Option (List ℕ) × List ℕ) :=
  match acc with
  | Except.error e => Except.error e
  | Except.ok (reached, emitted) =>
    if successful ≥ m then
      match reached with
      | none => Except.error "KeyError: milestones_reached"
      | some r =>
        if m ∉ r then Except.ok (some (r ++ [m]), emitted ++ [m])
        else Except.ok (reached, emitted)
    else Except.ok (reached, emitted)

/-- `check_milestones` as run on a user record: fold over
`MILESTONE_ANNOUNCES`, returning the updated stored entry and the emitted
milestones, or the propagated `KeyError`. -/
def check_milestones_run (successful : ℕ) (reached : Option (List ℕ)) :
    Except String (Option (List ℕ) × List ℕ) :=
  MILESTONE_ANNOUNCES.foldl (milestoneStepRun successful) (Except.ok (reached, []))

/-! ## Verification (roombot.py `create_verification` 258-277,
`verify_answer` 280-310, `is_blacklisted` 316-317, `blacklist_user`
320-321) -/

/-- The emoji palette has 8 symbols; we index them 0..7. -/
def emojiPalette : List ℕ := [0, 1, 2, 3, 4, 5, 6, 7]

/-- A pending verification challenge (one entry of
`bot_data["verifications"]`).  The expected answer is the ordered emoji
sequence; comparison in the source is exact after whitespace stripping,
which the symbolic model renders as list equality. -/
structure Verification where
  answer : List ℕ
  invite_code : ℕ
  expires_at : ℚ
  attempts : ℕ
deriving DecidableEq, Repr

/-- One user's verification-relevant state: their pending challenge (if
any) and their `blacklisted_until` timestamp. -/
structure VerifState where
  pending : Option Verification
  blacklisted_until : ℚ
deriving DecidableEq, Repr

/-- `create_verification`: refuses when blacklisted, otherwise overwrites
any pending challenge with a fresh one.  `sample` stands for the result of
`random.sample(emojis, 4)` — an environment input. -/
def create_verification (st : VerifState) (now : ℚ) (sample : List ℕ)
    (invite_code : ℕ) : VerifState × Option (List ℕ) :=
  if now < st.blacklisted_until then (st, none)
  else
    ({ st with pending := some ⟨sample, invite_code, now + VERIFICATION_TIMEOUT, 0⟩ },
     some sample)

/-- `verify_answer`: mirrors roombot.py 280-310 — not-found and expiry
short-circuit; otherwise the attempt counter is incremented, a match
consumes the challenge and returns the invite code, and a third mismatch
blacklists for `BLACKLIST_DURATION` and discards the challenge. -/
def verify_answer (st : VerifState) (now : ℚ) (ans : List ℕ) :
    VerifState × (Bool × Option ℕ) :=
  match st.pending with
  | none => (st, (false, none))
  | some v =>
    if now > v.expires_at then
      ({ st with pending := none }, (false, none))
    else
      let v := { v with attempts := v.attempts + 1 }
      if ans = v.answer then
        ({ st with pending := none }, (true, some v.invite_code))
      else if v.attempts ≥ 3 then
        ({ pending := none, blacklisted_until := now + BLACKLIST_DURATION },
         (false, none))
      else
        ({ st with pending := some v }, (false, none))

/-! ## Referral relationships (roombot.py `cmd_start` 487-541,
`handle_private_message` 1191-1252; invite_manager.py `use_invite`
88-108).  `rel` maps a child account to its recorded parent. -/

/-- The end-to-end redeem step for an account: `cmd_start` rejects a
self-invite before issuing the challenge, and on verification success
`handle_private_message` leaves the store untouched when the candidate is
already linked, otherwise records `relationships[candidate] = inviter`. -/
def redeem (rel : ℕ → Option ℕ) (inviter candidate : ℕ) : ℕ → Option ℕ :=
  if inviter = candidate then rel
  else
    match rel candidate with
    | some _ => rel
    | none => fun u => if u = candidate then some inviter else rel u

/-- `k`-fold parent lookup: `iterParent rel k u = some v` when walking `k`
edges up from `u` reaches `v`. -/
def iterParent (rel : ℕ → Option ℕ) : ℕ → ℕ → Option ℕ
  | 0, u => some u
  | k + 1, u =>
    match rel u with
    | none => none
    | some p => iterParent rel k p

/-! ## Wager engine (roombot.py `cmd_wager` 850-910,
`handle_callback_query` 981-1104, `cleanup_expired_wagers` 452-471,
`cmd_gift` 913-978, `cmd_daily` 798-847, `handle_member_left` 1331-1348) -/

/-- One entry of `bot_data["pending_wagers"]`. -/
structure Wager where
  challenger : ℕ
  stake : ℚ
  expires_at : ℚ
  accepted : Bool
deriving DecidableEq, Repr

/-- The balance-relevant engine state: `lover_points` per account, the
pending-wager store, and the (immutable under these operations) referral
parent map read by the cascade. -/
structure EngineState where
  bal : ℕ → ℚ
  wagers : ℕ → Option Wager
  rel : ℕ → Option ℕ

/-- Settlement balance transfer (roombot.py 1052-1059): the winner is
credited `2 × stake` and the loser debited `stake`, unconditionally —
regardless of whether the loser is the challenger (whose stake was
already escrowed at creation) or the acceptor. -/
def settleBal (bal : ℕ → ℚ) (winner loser : ℕ) (stake : ℚ) : ℕ → ℚ :=
  fun a =>
    if a = winner then bal a + 2 * stake
    else if a = loser then bal a - stake
    else bal a

/-- The engine operations the claims quantify over.  Random and ambient
inputs (the coin flip, `time.time()`, the inviter's streak read by the
cascade, the daily-bonus inputs) are operation parameters. -/
inductive Op where
  | createWager (id challenger : ℕ) (stake now : ℚ)
  | acceptWager (id acceptor : ℕ) (challengerWins : Bool) (now : ℚ)
  | cancelWager (id requester : ℕ) (now : ℚ)
  | expireSweep (id : ℕ) (now : ℚ)
  | cascade (root : ℕ) (base : ℚ) (streak : ℕ)
  | gift (giver recipient : ℕ) (amount : ℚ)
  | daily (account level daysActive : ℕ)
  | memberLeft (inviter : ℕ)

/-- One engine step.  Each branch follows the cited source site; a failed
validation leaves the state unchanged (the source replies with an error
message and returns). -/
def step (s : EngineState) : Op → EngineState
  | .createWager id ch stake now =>
    -- cmd_wager: 0 < points ≤ 1000, balance check, escrow debit, store
    -- (wager ids are timestamp-based and fresh; collisions do not occur).
    if 0 < stake ∧ stake ≤ 1000 ∧ stake ≤ s.bal ch ∧ s.wagers id = none then
      { s with
        bal := creditBal s.bal ch (-stake)
        wagers := fun i =>
          if i = id then some ⟨ch, stake, now + WAGER_EXPIRY, false⟩ else s.wagers i }
    else s
  | .acceptWager id acc cw now =>
    match s.wagers id with
    | none => s
    | some w =>
      if now > w.expires_at then
        -- expiry path of handle_callback_query: refund challenger, delete
        { s with
          bal := creditBal s.bal w.challenger w.stake
          wagers := fun i => if i = id then none else s.wagers i }
      else if acc = w.challenger then s
      else if w.accepted then s
      else if s.bal acc < w.stake then s
      else
        -- settle immediately: coin flip, transfer, remove the wager
        { s with
          bal :=
            if cw then settleBal s.bal w.challenger acc w.stake
            else settleBal s.bal acc w.challenger w.stake
          wagers := fun i => if i = id then none else s.wagers i }
  | .cancelWager id req now =>
    match s.wagers id with
    | none => s
    | some w =>
      if now > w.expires_at then
        { s with
          bal := creditBal s.bal w.challenger w.stake
          wagers := fun i => if i = id then none else s.wagers i }
      else if req = w.challenger then
        { s with
          bal := creditBal s.bal w.challenger w.stake
          wagers := fun i => if i = id then none else s.wagers i }
      else s
  | .expireSweep id now =>
    -- cleanup_expired_wagers: refund only unaccepted expired wagers
    match s.wagers id with
    | none => s
    | some w =>
      if now > w.expires_at then
        { s with
          bal := if w.accepted then s.bal else creditBal s.bal w.challenger w.stake
          wagers := fun i => if i = id then none else s.wagers i }
      else s
  | .cascade root base streak =>
    { s with bal := applyCredits s.bal (award_points_cascade s.rel streak root base) }
  | .gift g r amount =>
    -- cmd_gift: positive, ≤ 10000, not self, funds check, transfer
    if 0 < amount ∧ amount ≤ 10000 ∧ g ≠ r ∧ amount ≤ s.bal g then
      { s with bal := creditBal (creditBal s.bal g (-amount)) r amount }
    else s
  | .daily a level daysActive =>
    -- cmd_daily bonus: 10 + 2*level + min(days_active, 30), pure credit
    { s with bal := creditBal s.bal a (10 + 2 * level + min daysActive 30) }
  | .memberLeft inviter =>
    -- handle_member_left: subtract the 0.5 penalty, clamped at zero
    { s with
      bal := fun a => if a = inviter then max 0 (s.bal a - 1/2) else s.bal a }

/-- Run a list of operations. -/
def run (s : EngineState) : List Op → EngineState
  | [] => s
  | op :: rest => run (step s op) rest

/-- The settlement arithmetic of the modular implementation
(callbacks.py `_execute_wager_duel` 127-157): given the post-escrow
balances of challenger and acceptor, returns their new balances.  When
the challenger wins they receive `2 × stake` back; when the acceptor wins
the challenger is left untouched (the escrow is the loss) and the
acceptor is credited only `stake`. -/
def modular_settle (challengerBal acceptorBal stake : ℚ)
    (challengerWins : Bool) : ℚ × ℚ :=
  if challengerWins then (challengerBal + stake * 2, acceptorBal - stake)
  else (challengerBal, acceptorBal + stake)

/-- Every account balance is nonnegative. -/
def NonnegBal (s : EngineState) : Prop := ∀ a, 0 ≤ s.bal a

/-- Every pending wager escrows a positive stake (guaranteed at creation
by the `0 < points ≤ 1000` validation). -/
def PosStakes (s : EngineState) : Prop :=
  ∀ id w, s.wagers id = some w → 0 < w.stake

/-- The engine's balance invariant. -/
def Inv (s : EngineState) : Prop := NonnegBal s ∧ PosStakes s

/-! ## Concrete scenarios used by the theorems -/

/-- A straight parent chain of depth 5: account 0 was invited by 1, 1 by
2, 2 by 3, 3 by 4; account 4 has no parent. -/
def chain5 : ℕ → Option ℕ := fun n => if n < 4 then some (n + 1) else none

/-- Two accounts holding 100 points each, no pending wagers. -/
def wagerDemoInit : EngineState :=
  { bal := fun a => if a = 0 then 100 else if a = 1 then 100 else 0
    wagers := fun _ => none
    rel := fun _ => none }

/-- Challenger (account 0) holding exactly the 50-point stake, acceptor
(account 1) holding 100. -/
def poorChallengerInit : EngineState :=
  { bal := fun a => if a = 0 then 50 else if a = 1 then 100 else 0
    wagers := fun _ => none
    rel := fun _ => none }

/-- Empty engine: all balances zero, no wagers, no relationships. -/
def zeroEngineState : EngineState :=
  { bal := fun _ => 0, wagers := fun _ => none, rel := fun _ => none }

/-! ## Helper lemmas -/

theorem settleBal_winner (bal : ℕ → ℚ) (winner loser : ℕ) (stake : ℚ) :
    settleBal bal winner loser stake winner = bal winner + 2 * stake := by
  simp [settleBal]

theorem settleBal_loser (bal : ℕ → ℚ) (winner loser : ℕ) (stake : ℚ)
    (h : loser ≠ winner) :
    settleBal bal winner loser stake loser = bal loser - stake := by
  simp [settleBal, h]

theorem settleBal_other (bal : ℕ → ℚ) (winner loser : ℕ) (stake : ℚ) (a : ℕ)
    (h1 : a ≠ winner) (h2 : a ≠ loser) :
    settleBal bal winner loser stake a = bal a := by
  simp [settleBal, h1, h2]

theorem cascadeCredits_length_le (parent : ℕ → Option ℕ) :
    ∀ (fuel : ℕ) (cur : ℕ) (pts : ℚ),
      (cascadeCredits parent cur pts fuel).length ≤ fuel := by
  intro fuel
  induction fuel with
  | zero => intro cur pts; simp [cascadeCredits]
  | succ n ih =>
    intro cur pts
    by_cases h : (1:ℚ)/100 ≤ pts
    · rw [one_div] at h
      cases hp : parent cur
      · simp [cascadeCredits, h, hp]
      · simpa [cascadeCredits, h, hp] using ih _ _
    · rw [one_div] at h
      simp [cascadeCredits, h]

theorem cascadeCredits_small (parent : ℕ → Option ℕ) (cur : ℕ) (pts : ℚ)
    (fuel : ℕ) (h : pts < 1/100) : cascadeCredits parent cur pts fuel = [] := by
  rw [one_div] at h
  cases fuel with
  | zero => rfl
  | succ n => simp [cascadeCredits, not_le.2 h]

theorem cascadeCredits_no_parent (parent : ℕ → Option ℕ) (cur : ℕ) (pts : ℚ)
    (fuel : ℕ) (hp : parent cur = none) (h : pts ≥ 1/100) :
    cascadeCredits parent cur pts (fuel + 1) = [(cur, pts)] := by
  rw [ge_iff_le, one_div] at h
  simp [cascadeCredits, h, hp]

theorem cascadeCredits_amount_pos (parent : ℕ → Option ℕ) :
    ∀ (fuel : ℕ) (cur : ℕ) (pts : ℚ) (c : ℕ × ℚ),
      c ∈ cascadeCredits parent cur pts fuel → 0 ≤ c.2 := by
  intro fuel
  induction fuel with
  | zero => intro cur pts c hc; simp [cascadeCredits] at hc
  | succ n ih =>
    intro cur pts c hc
    by_cases h : pts ≥ 1/100
    · have hpos : (0:ℚ) ≤ pts := le_trans (by norm_num) h
      cases hp : parent cur
      · rw [cascadeCredits, if_pos h, hp] at hc
        rcases List.mem_cons.1 hc with rfl | hc'
        · exact hpos
        · simp at hc'
      · rw [cascadeCredits, if_pos h, hp] at hc
        rcases List.mem_cons.1 hc with rfl | hc'
        · exact hpos
        · exact ih _ _ c hc'
    · rw [cascadeCredits, if_neg h] at hc
      simp at hc

theorem applyCredits_nonneg :
    ∀ (credits : List (ℕ × ℚ)) (bal : ℕ → ℚ), (∀ c ∈ credits, 0 ≤ c.2) →
      (∀ a, 0 ≤ bal a) → ∀ a, 0 ≤ applyCredits bal credits a := by
  intro credits
  induction credits with
  | nil => intro bal _ hb a; exact hb a
  | cons c rest ih =>
    intro bal hc hb a
    rw [applyCredits]
    apply ih
    · intro d hd; exact hc d (List.mem_cons_of_mem c hd)
    · intro x
      unfold creditBal
      split
      · exact add_nonneg (hb x) (hc c (by simp))
      · exact hb x

theorem milestoneFold_mem_of_mem (s : ℕ) :
    ∀ (L : List ℕ) (acc : List ℕ × List ℕ) (m : ℕ), m ∈ acc.1 →
      m ∈ (L.foldl (milestoneStep s) acc).1 := by
  intro L
  induction L with
  | nil => intro acc m hm; simpa using hm
  | cons x xs ih =>
    intro acc m hm
    simp only [List.foldl_cons]
    apply ih
    unfold milestoneStep
    split
    · simp [hm]
    · exact hm

theorem milestoneFold_complete (s : ℕ) :
    ∀ (L : List ℕ) (acc : List ℕ × List ℕ) (m : ℕ), m ∈ L → s ≥ m →
      m ∈ (L.foldl (milestoneStep s) acc).1 := by
  intro L
  induction L with
  | nil => intro acc m hm; simp at hm
  | cons x xs ih =>
    intro acc m hm hs
    simp only [List.foldl_cons]
    rcases List.mem_cons.1 hm with rfl | hm'
    · apply milestoneFold_mem_of_mem
      unfold milestoneStep
      split
      · simp
      · rename_i hcond
        rw [not_and_or] at hcond
        rcases hcond with hc | hc
        · exact absurd hs hc
        · simpa using hc
    · exact ih _ m hm' hs

theorem milestoneRun_agrees_fold (s : ℕ) :
    ∀ (L : List ℕ) (r e : List ℕ),
      L.foldl (milestoneStepRun s) (Except.ok (some r, e))
        = Except.ok (some (L.foldl (milestoneStep s) (r, e)).1,
            (L.foldl (milestoneStep s) (r, e)).2) := by
  intro L
  induction L with
  | nil => intro r e; rfl
  | cons m L ih =>
    intro r e
    simp only [List.foldl_cons]
    by_cases h1 : s ≥ m
    · by_cases h2 : m ∈ r
      · have e1 : milestoneStepRun s (Except.ok (some r, e)) m
            = Except.ok (some r, e) := by
          simp [milestoneStepRun, h1, h2]
        have e2 : milestoneStep s (r, e) m = (r, e) := by
          simp [milestoneStep, h1, h2]
        rw [e1, e2]
        exact ih r e
      · have e1 : milestoneStepRun s (Except.ok (some r, e)) m
            = Except.ok (some (r ++ [m]), e ++ [m]) := by
          simp [milestoneStepRun, h1, h2]
        have e2 : milestoneStep s (r, e) m = (r ++ [m], e ++ [m]) := by
          simp [milestoneStep, h1, h2]
        rw [e1, e2]
        exact ih (r ++ [m]) (e ++ [m])
    · have e1 : milestoneStepRun s (Except.ok (some r, e)) m
          = Except.ok (some r, e) := by
        simp [milestoneStepRun, h1]
      have e2 : milestoneStep s (r, e) m = (r, e) := by
        simp [milestoneStep, h1]
      rw [e1, e2]
      exact ih r e

theorem milestoneFold_stable (s : ℕ) :
    ∀ (L : List ℕ) (acc : List ℕ × List ℕ), (∀ m ∈ L, s ≥ m → m ∈ acc.1) →
      L.foldl (milestoneStep s) acc = acc := by
  intro L
  induction L with
  | nil => intro acc _; rfl
  | cons x xs ih =>
    intro acc hacc
    simp only [List.foldl_cons]
    have hstep : milestoneStep s acc x = acc := by
      unfold milestoneStep
      split
      · rename_i hcond
        exact absurd (hacc x (by simp) hcond.1) hcond.2
      · rfl
    rw [hstep]
    exact ih acc (fun m hm => hacc m (by simp [hm]))

/-! ## Claim C1 — wager settlement (code bug) -/

/-- C1: evidence against the claimed settlement accounting.  With both
accounts at 100 and stake 50, after creation the challenger holds 50
(escrow); when the coin favours the acceptor, settlement debits the
losing challenger again: the challenger ends at 0 — a total loss of
`2 × stake` over the wager's lifetime, not `stake` — while the acceptor,
never debited, ends at 200.  The combined balance is still conserved.
The modular `_execute_wager_duel` instead leaves a losing challenger
untouched but credits an acceptor-winner only `stake`, not `2 × stake`. -/
theorem C1_wager_settlement_double_debit :
    (step wagerDemoInit (Op.createWager 7 0 50 0)).bal 0 = 50 ∧
    (run wagerDemoInit [Op.createWager 7 0 50 0, Op.acceptWager 7 1 false 10]).bal 0 = 0 ∧
    (run wagerDemoInit [Op.createWager 7 0 50 0, Op.acceptWager 7 1 false 10]).bal 1 = 200 ∧
    wagerDemoInit.bal 0
      - (run wagerDemoInit [Op.createWager 7 0 50 0, Op.acceptWager 7 1 false 10]).bal 0
      = 2 * 50 ∧
    (run wagerDemoInit [Op.createWager 7 0 50 0, Op.acceptWager 7 1 false 10]).bal 0
      + (run wagerDemoInit [Op.createWager 7 0 50 0, Op.acceptWager 7 1 false 10]).bal 1
      = wagerDemoInit.bal 0 + wagerDemoInit.bal 1 ∧
    modular_settle 50 100 50 false = (50, 150) := by
  refine ⟨?_, ?_, ?_, ?_, ?_, ?_⟩ <;>
    norm_num [run, step, wagerDemoInit, creditBal, settleBal, modular_settle,
      WAGER_EXPIRY]

/-! ## Claim C2 — balance invariant (corrected) -/

/-- C2 counterexample: a challenger who creates a wager with exactly the
stake (50 of 50) and loses the coin flip is driven to a negative balance
(−50): the settlement debit of the losing challenger performs no funds
check. -/
theorem C2_negative_balance_counterexample :
    (run poorChallengerInit
        [Op.createWager 3 0 50 0, Op.acceptWager 3 1 false 10]).bal 0 = -50 ∧
    ¬ (0 ≤ (run poorChallengerInit
        [Op.createWager 3 0 50 0, Op.acceptWager 3 1 false 10]).bal 0) := by
  have h : (run poorChallengerInit
      [Op.createWager 3 0 50 0, Op.acceptWager 3 1 false 10]).bal 0 = -50 := by
    norm_num [run, step, poorChallengerInit, creditBal, settleBal, WAGER_EXPIRY]
  exact ⟨h, by rw [h]; norm_num⟩

/-- C2 (amended): from any state with nonnegative balances and positive
escrowed stakes, every operation except a settlement lost by the
challenger preserves the invariant: creation, gift and the acceptance
check debit only after a funds check; cancel/expire refunds, cascade
credits and daily bonuses only add; the member-leave penalty applies the
clamped delta `min(0.5, balance)` (no funds check, but no negativity).
A settlement won by the challenger also preserves it.  A settlement won
by the acceptor debits the challenger unconditionally: it always sets the
challenger's balance to `balance − stake` (every other account stays
nonnegative), so the invariant survives only when the challenger still
holds at least the stake. -/
theorem C2_balance_invariant_amended (s : EngineState) (hInv : Inv s) :
    (∀ id ch stake now, Inv (step s (Op.createWager id ch stake now))) ∧
    (∀ id req now, Inv (step s (Op.cancelWager id req now))) ∧
    (∀ id now, Inv (step s (Op.expireSweep id now))) ∧
    (∀ root base streak, Inv (step s (Op.cascade root base streak))) ∧
    (∀ g r amount, Inv (step s (Op.gift g r amount))) ∧
    (∀ a level d, Inv (step s (Op.daily a level d))) ∧
    (∀ leaver, Inv (step s (Op.memberLeft leaver)) ∧
      ∀ a, (step s (Op.memberLeft leaver)).bal a
            = s.bal a - (if a = leaver then min (1/2) (s.bal a) else 0)) ∧
    (∀ id acc now, Inv (step s (Op.acceptWager id acc true now))) ∧
    (∀ id acc now w, s.wagers id = some w → ¬ now > w.expires_at →
        acc ≠ w.challenger → w.accepted = false → ¬ s.bal acc < w.stake →
        (step s (Op.acceptWager id acc false now)).bal w.challenger
          = s.bal w.challenger - w.stake ∧
        (∀ a, a ≠ w.challenger →
          0 ≤ (step s (Op.acceptWager id acc false now)).bal a) ∧
        (w.stake ≤ s.bal w.challenger →
          Inv (step s (Op.acceptWager id acc false now)))) := by
  obtain ⟨hb, hw⟩ := hInv
  have hremove : ∀ (id : ℕ),
      (∀ i w', (if i = id then none else s.wagers i) = some w' → 0 < w'.stake) := by
    intro id i w' hi
    by_cases hid : i = id
    · rw [if_pos hid] at hi; cases hi
    · rw [if_neg hid] at hi; exact hw i w' hi
  refine ⟨?_, ?_, ?_, ?_, ?_, ?_, ?_, ?_, ?_⟩
  · intro id ch stake now
    simp only [step]
    split
    · rename_i hcond
      obtain ⟨hpos, _, hfunds, _⟩ := hcond
      refine ⟨?_, ?_⟩
      · intro a
        simp only [creditBal]
        split
        · rename_i ha; rw [ha]; linarith
        · exact hb a
      · intro i w hi
        simp only at hi
        by_cases hid : i = id
        · rw [if_pos hid] at hi
          cases hi
          exact hpos
        · rw [if_neg hid] at hi
          exact hw i w hi
    · exact ⟨hb, hw⟩
  · intro id req now
    rcases hm : s.wagers id with _ | w
    · simp only [step, hm]; exact ⟨hb, hw⟩
    · have hstake := hw id w hm
      simp only [step, hm]
      have hrefund : Inv
          { s with bal := creditBal s.bal w.challenger w.stake,
                   wagers := fun i => if i = id then none else s.wagers i } := by
        refine ⟨?_, fun i w' hi => hremove id i w' hi⟩
        intro a
        simp only [creditBal]
        split
        · have := hb a; linarith
        · exact hb a
      split
      · exact hrefund
      · split
        · exact hrefund
        · exact ⟨hb, hw⟩
  · intro id now
    rcases hm : s.wagers id with _ | w
    · simp only [step, hm]; exact ⟨hb, hw⟩
    · have hstake := hw id w hm
      simp only [step, hm]
      split
      · refine ⟨?_, fun i w' hi => hremove id i w' hi⟩
        intro a
        simp only
        split
        · exact hb a
        · simp only [creditBal]
          split
          · have := hb a; linarith
          · exact hb a
      · exact ⟨hb, hw⟩
  · intro root base streak
    refine ⟨?_, fun i w hi => hw i w hi⟩
    intro a
    simp only [step]
    apply applyCredits_nonneg
    · intro c hc
      exact cascadeCredits_amount_pos s.rel 10 root _ c hc
    · exact hb
  · intro g r amount
    simp only [step]
    split
    · rename_i hcond
      obtain ⟨hpos, _, hne, hfunds⟩ := hcond
      refine ⟨?_, fun i w hi => hw i w hi⟩
      intro a
      simp only [creditBal]
      by_cases har : a = r
      · rw [if_pos har]
        by_cases hag : a = g
        · rw [if_pos hag]
          have := hb a; linarith
        · rw [if_neg hag]
          have := hb a; linarith
      · rw [if_neg har]
        by_cases hag : a = g
        · rw [if_pos hag]; rw [hag]; linarith
        · rw [if_neg hag]; exact hb a
    · exact ⟨hb, hw⟩
  · intro a level d
    refine ⟨?_, fun i w hi => hw i w hi⟩
    intro x
    simp only [step, creditBal]
    split
    · have h1 : (0:ℚ) ≤ 10 + 2 * (level:ℚ) + min (d : ℚ) 30 := by positivity
      have := hb x
      linarith
    · exact hb x
  · intro leaver
    refine ⟨⟨?_, fun i w hi => hw i w hi⟩, ?_⟩
    · intro a
      simp only [step]
      split
      · exact le_max_left 0 _
      · exact hb a
    · intro a
      simp only [step]
      by_cases ha : a = leaver
      · rw [if_pos ha, if_pos ha]
        rcases le_total (1/2 : ℚ) (s.bal a) with hle | hle
        · rw [max_eq_right (by linarith), min_eq_left hle]
        · rw [max_eq_left (by linarith), min_eq_right hle]
          ring
      · rw [if_neg ha, if_neg ha]
        ring
  · intro id acc now
    rcases hm : s.wagers id with _ | w
    · simp only [step, hm]; exact ⟨hb, hw⟩
    · have hstake := hw id w hm
      simp only [step, hm]
      split
      · refine ⟨?_, fun i w' hi => hremove id i w' hi⟩
        intro a
        simp only [creditBal]
        split
        · have := hb a; linarith
        · exact hb a
      · split
        · exact ⟨hb, hw⟩
        · split
          · exact ⟨hb, hw⟩
          · split
            · exact ⟨hb, hw⟩
            · rename_i hexpneg hselfneg haccneg hnotlt
              refine ⟨?_, fun i w' hi => hremove id i w' hi⟩
              intro a
              show 0 ≤ settleBal s.bal w.challenger acc w.stake a
              by_cases hwin : a = w.challenger
              · rw [hwin, settleBal_winner]
                have := hb w.challenger; linarith
              · by_cases hlose : a = acc
                · rw [hlose, settleBal_loser s.bal w.challenger acc w.stake hselfneg]
                  have := not_lt.1 hnotlt
                  linarith
                · rw [settleBal_other s.bal w.challenger acc w.stake a hwin hlose]
                  exact hb a
  · intro id acc now w hm hexp hne hacc hfunds
    have hstake := hw id w hm
    have hne2 : w.challenger ≠ acc := fun h => hne h.symm
    simp only [step, hm, if_neg hexp, if_neg hne, hacc, Bool.false_eq_true, if_false,
      if_neg hfunds]
    refine ⟨?_, ?_, ?_⟩
    · show settleBal s.bal acc w.challenger w.stake w.challenger
        = s.bal w.challenger - w.stake
      exact settleBal_loser s.bal acc w.challenger w.stake hne2
    · intro a ha
      show 0 ≤ settleBal s.bal acc w.challenger w.stake a
      by_cases hwin : a = acc
      · rw [hwin, settleBal_winner]
        have := not_lt.1 hfunds
        have := hb acc
        linarith
      · rw [settleBal_other s.bal acc w.challenger w.stake a hwin ha]
        exact hb a
    · intro hcover
      refine ⟨?_, fun i w' hi => hremove id i w' hi⟩
      intro a
      show 0 ≤ settleBal s.bal acc w.challenger w.stake a
      by_cases hwin : a = acc
      · rw [hwin, settleBal_winner]
        have := hb acc; linarith
      · by_cases hlose : a = w.challenger
        · rw [hlose, settleBal_loser s.bal acc w.challenger w.stake hne2]
          linarith
        · rw [settleBal_other s.bal acc w.challenger w.stake a hwin hlose]
          exact hb a

/-- C2 witness: the amended invariant theorem applied at the empty engine
state and a daily-bonus operation. -/
theorem C2_balance_invariant_witness :
    Inv (step zeroEngineState (Op.daily 3 1 2)) := by
  have h := C2_balance_invariant_amended zeroEngineState
    ⟨fun a => le_refl 0, fun id w hi => Option.noConfusion hi⟩
  exact h.2.2.2.2.2.1 3 1 2

/-! ## Claim C3 — cascade reward walk (corrected) -/

/-- C3 counterexample: the modular implementation does not add the hop
amounts in full.  `_award_cascade_points` computes the same 10, 5, 2.5,
1.25, 0.625 credits, but stores each through
`UserManager.award_points`, whose write is `int(current + points)` into
the integer `points` column: starting from all-zero balances on the
depth-5 chain, the 2.5 recipient ends with a stored balance of 2
(≠ 0 + 2.5) and the 0.625 recipient with 0; a recipient with no
session-cache entry is not credited at all (the early `return False`). -/
theorem C3_modular_truncation_counterexample :
    award_points_cascade chain5 0 0 10
      = [(0, 10), (1, 5), (2, 5/2), (3, 5/4), (4, 5/8)] ∧
    applyModularCredits (fun _ => 0) (fun _ => true)
      (award_points_cascade chain5 0 0 10) 2 = 2 ∧
    ((2 : ℚ) ≠ (0 : ℚ) + 5/2) ∧
    applyModularCredits (fun _ => 0) (fun _ => true)
      (award_points_cascade chain5 0 0 10) 4 = 0 ∧
    modular_award_points (fun _ => 0) (fun _ => false) 7 (5/2) 7 = 0 := by
  refine ⟨?_, ?_, by norm_num, ?_, ?_⟩ <;>
    norm_num [award_points_cascade, cascadeCredits, chain5, STREAK_BONUS_MULTIPLIER,
      applyModularCredits, modular_award_points, pyInt]

/-- C3 (amended): in the monolithic engine the claim holds in full — the
cascade credits the current account then halves the amount at each hop:
on the depth-5 chain with base reward 10 and zero streak the per-hop
credits are exactly 10, 5, 2.5, 1.25, 0.625, each added in full to the
recipient's stored balance (and no other account is touched); in general
the walk performs at most 10 credits (hard depth cap), performs none once
the amount is below 0.01, and stops right after crediting an account with
no parent.  The modular engine walks the same chain with the same
stopping rules and per-hop amounts, but its storage truncates each credit
to an integer and skips recipients without session data, so the
fractional amounts are not added in full there. -/
theorem C3_cascade_per_hop (parent : ℕ → Option ℕ) (cur : ℕ) (pts : ℚ)
    (fuel : ℕ) (B : ℕ → ℚ) :
    award_points_cascade chain5 0 0 10
      = [(0, 10), (1, 5), (2, 5/2), (3, 5/4), (4, 5/8)] ∧
    (applyCredits B (award_points_cascade chain5 0 0 10) 0 = B 0 + 10 ∧
     applyCredits B (award_points_cascade chain5 0 0 10) 1 = B 1 + 5 ∧
     applyCredits B (award_points_cascade chain5 0 0 10) 2 = B 2 + 5/2 ∧
     applyCredits B (award_points_cascade chain5 0 0 10) 3 = B 3 + 5/4 ∧
     applyCredits B (award_points_cascade chain5 0 0 10) 4 = B 4 + 5/8) ∧
    (∀ i, 5 ≤ i → applyCredits B (award_points_cascade chain5 0 0 10) i = B i) ∧
    (cascadeCredits parent cur pts fuel).length ≤ fuel ∧
    (pts < 1/100 → cascadeCredits parent cur pts fuel = []) ∧
    (parent cur = none → pts ≥ 1/100 →
      cascadeCredits parent cur pts (fuel + 1) = [(cur, pts)]) := by
  have hconc : award_points_cascade chain5 0 0 10
      = [(0, 10), (1, 5), (2, 5/2), (3, 5/4), (4, 5/8)] := by
    norm_num [award_points_cascade, cascadeCredits, chain5, STREAK_BONUS_MULTIPLIER]
  refine ⟨hconc, ?_, ?_, cascadeCredits_length_le parent fuel cur pts,
    cascadeCredits_small parent cur pts fuel,
    cascadeCredits_no_parent parent cur pts fuel⟩
  · rw [hconc]
    norm_num [applyCredits, creditBal]
  · intro i hi
    rw [hconc]
    have h0 : i ≠ 0 := by omega
    have h1 : i ≠ 1 := by omega
    have h2 : i ≠ 2 := by omega
    have h3 : i ≠ 3 := by omega
    have h4 : i ≠ 4 := by omega
    simp [applyCredits, creditBal, h0, h1, h2, h3, h4]

/-- C3 witness: the below-floor stopping clause of the cascade theorem at
a concrete amount 1/200 < 0.01. -/
theorem C3_cascade_witness : cascadeCredits chain5 9 (1/200) 10 = [] := by
  have h := C3_cascade_per_hop chain5 9 (1/200) 10 (fun _ => 0)
  exact h.2.2.2.2.1 (by norm_num)

/-! ## Claim C4 — three wrong answers (confirmed) -/

/-- C4: for a pending, unexpired challenge with a fresh attempt counter,
the first two wrong answers leave the challenge pending with attempts 1
and 2; the third wrong answer sets `blacklisted_until = now + 24h` and
discards the challenge; a fourth submission — `a4` is arbitrary, so in
particular the exact expected sequence — is rejected as
challenge-not-found (`(false, none)`) without touching the state. -/
theorem C4_three_wrong_answers (v : Verification) (bl : ℚ)
    (n1 n2 n3 n4 : ℚ) (w1 w2 w3 a4 : List ℕ)
    (hA : v.attempts = 0)
    (h1 : ¬ n1 > v.expires_at) (h2 : ¬ n2 > v.expires_at)
    (h3 : ¬ n3 > v.expires_at)
    (hw1 : w1 ≠ v.answer) (hw2 : w2 ≠ v.answer) (hw3 : w3 ≠ v.answer) :
    (verify_answer ⟨some v, bl⟩ n1 w1).1 = ⟨some { v with attempts := 1 }, bl⟩ ∧
    (verify_answer ⟨some v, bl⟩ n1 w1).2 = (false, none) ∧
    (verify_answer ⟨some { v with attempts := 1 }, bl⟩ n2 w2).1
      = ⟨some { v with attempts := 2 }, bl⟩ ∧
    (verify_answer ⟨some { v with attempts := 1 }, bl⟩ n2 w2).2 = (false, none) ∧
    (verify_answer ⟨some { v with attempts := 2 }, bl⟩ n3 w3).1
      = ⟨none, n3 + BLACKLIST_DURATION⟩ ∧
    (verify_answer ⟨some { v with attempts := 2 }, bl⟩ n3 w3).2 = (false, none) ∧
    (verify_answer ⟨none, n3 + BLACKLIST_DURATION⟩ n4 a4).1
      = ⟨none, n3 + BLACKLIST_DURATION⟩ ∧
    (verify_answer ⟨none, n3 + BLACKLIST_DURATION⟩ n4 a4).2 = (false, none) := by
  obtain ⟨ans, code, exp, att⟩ := v
  simp only [Verification.attempts] at hA
  subst hA
  simp only [Verification.answer] at hw1 hw2 hw3
  simp only [Verification.expires_at] at h1 h2 h3
  refine ⟨?_, ?_, ?_, ?_, ?_, ?_, ?_, ?_⟩ <;>
    simp [verify_answer, h1, h2, h3, hw1, hw2, hw3]

/-- C4 witness: the three-strikes theorem at a concrete challenge
(expected sequence `[9,8,7,6]`, expiry 1000) with three wrong `[0]`
submissions at times 10, 20, 30 and a correct fourth one at time 40. -/
theorem C4_three_wrong_answers_witness :
    (verify_answer ⟨some ⟨[9, 8, 7, 6], 5, 1000, 2⟩, 0⟩ 30 [0]).1
      = ⟨none, 30 + BLACKLIST_DURATION⟩ ∧
    (verify_answer ⟨none, 30 + BLACKLIST_DURATION⟩ 40 [9, 8, 7, 6]).2
      = (false, none) := by
  have h := C4_three_wrong_answers ⟨[9, 8, 7, 6], 5, 1000, 0⟩ 0 10 20 30 40
    [0] [0] [0] [9, 8, 7, 6] rfl (by norm_num) (by norm_num) (by norm_num)
    (by decide) (by decide) (by decide)
  exact ⟨h.2.2.2.2.1, h.2.2.2.2.2.2.2⟩

/-! ## Claim C5 — level-up step (corrected) -/

/-- C5 counterexample: `check_level_up` uses a single `if`, not a loop.
A level-1 user with 300 XP covers the thresholds of levels 1 (100) and 2
(200), but one call only moves them to level 2 with 200 XP remaining —
which is not below the new threshold, refuting the claimed multi-level
jump and post-condition. -/
theorem C5_multi_level_counterexample :
    check_level_up ⟨1, 300⟩ = (⟨2, 200⟩, true) ∧
    calculate_level_xp 2 = 200 ∧
    ¬ ((check_level_up ⟨1, 300⟩).1.xp
        < calculate_level_xp (check_level_up ⟨1, 300⟩).1.level) := by
  decide

/-- C5 (amended): one `check_level_up` call consumes at most one
threshold: when `xp ≥ base * level * (1 + level / 10)` it subtracts that
threshold once and increments the level once, returning `true`; otherwise
it leaves the user unchanged and returns `false`; the level never rises
by more than one in a single call. -/
theorem C5_single_level_step (u : LevelXp) :
    (u.xp ≥ calculate_level_xp u.level →
      check_level_up u = (⟨u.level + 1, u.xp - calculate_level_xp u.level⟩, true)) ∧
    (u.xp < calculate_level_xp u.level → check_level_up u = (u, false)) ∧
    (check_level_up u).1.level ≤ u.level + 1 := by
  refine ⟨fun h => ?_, fun h => ?_, ?_⟩
  · simp [check_level_up, h]
  · simp [check_level_up, Nat.not_le.2 h]
  · by_cases h : u.xp ≥ calculate_level_xp u.level
    · simp [check_level_up, h]
    · simp [check_level_up, h]

/-- C5 witness: the single-step theorem at a level-1 user with 150 XP. -/
theorem C5_single_level_witness : check_level_up ⟨1, 150⟩ = (⟨2, 50⟩, true) := by
  have h := C5_single_level_step ⟨1, 150⟩
  exact h.1 (by decide)

/-! ## Claim C6 — heat score (confirmed) -/

/-- C6: the heat score is 0 for an account that never had a successful
invite (`invites_successful = 0`, so both branches yield 0), is 0
whenever at least 24 hours have passed since the last success (strictly
more than 24 hits the early return; exactly 24 makes the decay factor 0),
and otherwise equals `round(invites_successful * (24 - hoursSince) / 24, 2)`;
with 5 successful invites and the last success exactly 12 hours ago the
score is 2.5. -/
theorem C6_heat_score_spec (n : ℕ) (last now : ℚ) :
    calculate_heat_score 0 last now = 0 ∧
    ((now - last) / 3600 ≥ 24 → calculate_heat_score n last now = 0) ∧
    ((now - last) / 3600 ≤ 24 →
      calculate_heat_score n last now
        = round2 (n * ((24 - (now - last) / 3600) / 24))) ∧
    calculate_heat_score 5 0 43200 = 5/2 ∧
    calculate_heat_score 5 0 86400 = 0 := by
  refine ⟨?_, fun h => ?_, fun h => ?_, ?_, ?_⟩
  · by_cases h : (now - last) / 3600 > 24 <;>
      simp [calculate_heat_score, HEAT_DECAY_HOURS, h, round2]
  · rcases lt_or_eq_of_le h with h' | h'
    · simp [calculate_heat_score, HEAT_DECAY_HOURS, h']
    · simp [calculate_heat_score, HEAT_DECAY_HOURS, ← h', round2]
  · simp [calculate_heat_score, HEAT_DECAY_HOURS, not_lt.2 h]
  · norm_num [calculate_heat_score, round2, HEAT_DECAY_HOURS]
  · norm_num [calculate_heat_score, round2, HEAT_DECAY_HOURS]

/-- C6 witness: the heat-score theorem at 3 successful invites, last
success 72 hours ago — the score is exactly 0. -/
theorem C6_heat_score_witness : calculate_heat_score 3 0 259200 = 0 := by
  have h := C6_heat_score_spec 3 0 259200
  exact h.2.1 (by norm_num)

/-! ## Claim C7 — referral forest (corrected) -/

/-- C7 counterexample: the redeem flow never checks ancestry.  Account 2
redeems a code of account 1 (parent 2 ↦ 1), then account 1 — still
unlinked, so every guard passes — redeems a code of account 2 (parent
1 ↦ 2): walking two parent edges from account 1 returns to account 1, so
account 1 is its own ancestor and the store is not a forest. -/
theorem C7_cycle_counterexample :
    (redeem (redeem (fun _ => none) 1 2) 2 1) 1 = some 2 ∧
    (redeem (redeem (fun _ => none) 1 2) 2 1) 2 = some 1 ∧
    iterParent (redeem (redeem (fun _ => none) 1 2) 2 1) 2 1 = some 1 := by
  refine ⟨?_, ?_, ?_⟩ <;> decide

/-- C7 (amended): each account has at most one parent (the store maps a
child to a single parent) and the parent pointer is immutable: a redeem
by an already-linked candidate is a complete no-op (with any code, any
inviter), no redeem ever alters an existing link, and a link is created
only for an unlinked, non-self candidate; but the store is not always a
forest — cycles are reachable (see the counterexample). -/
theorem C7_parent_immutable (rel : ℕ → Option ℕ) (inviter candidate u p : ℕ) :
    (rel candidate ≠ none → redeem rel inviter candidate = rel) ∧
    (rel u = some p → redeem rel inviter candidate u = some p) ∧
    (rel candidate = none → inviter ≠ candidate →
      redeem rel inviter candidate candidate = some inviter) := by
  refine ⟨fun h => ?_, fun h => ?_, fun h hne => ?_⟩
  · unfold redeem
    split
    · rfl
    · cases hc : rel candidate with
      | none => exact absurd hc h
      | some q => simp [hc]
  · unfold redeem
    split
    · exact h
    · cases hc : rel candidate with
      | none =>
        simp only [hc]
        by_cases hu : u = candidate
        · rw [hu] at h; rw [hc] at h; exact absurd h (by simp)
        · simp [hu, h]
      | some q => simp [hc, h]
  · simp [redeem, h, hne]

/-- C7 witness: immutability at a concrete store — account 5 is linked to
6, and a redeem of account 9's code by account 5 leaves the link at 6. -/
theorem C7_parent_immutable_witness :
    redeem (fun u => if u = 5 then some 6 else none) 9 5 5 = some 6 := by
  have h := C7_parent_immutable (fun u => if u = 5 then some 6 else none) 9 5 5 6
  exact h.2.1 (by decide)

/-! ## Claim C8 — invite streak update (corrected) -/

/-- C8 counterexample: the modular `_process_successful_invite` increments
the streak unconditionally — with the last success a full 200000 s
(> 24 h) in the past, a streak of 2 becomes 3 where the claim requires a
reset to 1 (the monolithic `update_invite_streak` does reset it). -/
theorem C8_unconditional_increment_counterexample :
    modular_process_streak 2 200000 = (3, 200000) ∧
    ¬ ((200000 : ℚ) - 0 < 86400) ∧
    update_invite_streak 2 0 200000 = (1, 200000) := by
  refine ⟨rfl, by norm_num, by norm_num [update_invite_streak]⟩

/-- C8 (amended): in the monolithic engine the claim holds — on a
successful invite the streak update runs before the cascade: the streak
is incremented when `now - last_invite_success < 24h` and reset to 1
otherwise, `last_invite_success` is set to `now`, and the cascade's
first-hop bonus reads the already-updated streak.  The modular
message-handlers path instead increments unconditionally. -/
theorem C8_streak_update_monolithic (parent : ℕ → Option ℕ) (streak : ℕ)
    (last now : ℚ) (root : ℕ) (base : ℚ) :
    (now - last < 86400 →
      process_successful_invite parent streak last now root base
        = ((streak + 1, now), award_points_cascade parent (streak + 1) root base)) ∧
    (¬ now - last < 86400 →
      process_successful_invite parent streak last now root base
        = ((1, now), award_points_cascade parent 1 root base)) := by
  constructor <;> intro h <;>
    simp [process_successful_invite, update_invite_streak, h]

/-- C8 witness: the monolithic streak theorem at a first-ever success
(last 0, now 10): the streak becomes 1 and the cascade runs with it. -/
theorem C8_streak_update_witness :
    process_successful_invite (fun _ => none) 0 0 10 0 1
      = ((1, 10), award_points_cascade (fun _ => none) 1 0 1) := by
  have h := C8_streak_update_monolithic (fun _ => none) 0 0 10 0 1
  exact h.1 (by norm_num)

/-! ## Claim C9 — milestone idempotence (code bug) -/

/-- C9: the milestone loop itself is idempotent — running
`check_milestones` a second time on the stored set produced by a first
run with the same `invites_successful` emits nothing and leaves the set
unchanged (and the run model agrees with that fold whenever the stored
entry exists).  But in the monolithic bot the claim cannot hold for any
account created by `init_user` once a threshold is met: the record has no
`milestones_reached` key, so for `invites_successful ≥ 10` the
short-circuited condition reaches `user["milestones_reached"]` and raises
`KeyError`; below the smallest threshold the subscript is never evaluated
and the call returns `[]` cleanly. -/
theorem C9_milestones_idempotent_but_key_missing (successful : ℕ)
    (reached : List ℕ) :
    check_milestones_fold successful (check_milestones_fold successful reached).1
      = ((check_milestones_fold successful reached).1, []) ∧
    check_milestones_run successful (some reached)
      = Except.ok (some (check_milestones_fold successful reached).1,
          (check_milestones_fold successful reached).2) ∧
    "milestones_reached" ∉ initUserKeys ∧
    (10 ≤ successful →
      check_milestones_run successful init_user_milestones_field
        = Except.error "KeyError: milestones_reached") ∧
    (successful < 10 →
      check_milestones_run successful init_user_milestones_field
        = Except.ok (none, [])) := by
  refine ⟨?_, ?_, by decide, fun h => ?_, fun h => ?_⟩
  · unfold check_milestones_fold
    apply milestoneFold_stable
    intro m hm hs
    exact milestoneFold_complete successful MILESTONE_ANNOUNCES (reached, []) m hm hs
  · unfold check_milestones_run check_milestones_fold
    exact milestoneRun_agrees_fold successful MILESTONE_ANNOUNCES reached []
  · simp [check_milestones_run, MILESTONE_ANNOUNCES, milestoneStepRun,
      init_user_milestones_field, h]
  · have h10 : ¬ successful ≥ 10 := by omega
    have h25 : ¬ successful ≥ 25 := by omega
    have h50 : ¬ successful ≥ 50 := by omega
    have h100 : ¬ successful ≥ 100 := by omega
    have h250 : ¬ successful ≥ 250 := by omega
    have h500 : ¬ successful ≥ 500 := by omega
    have h1000 : ¬ successful ≥ 1000 := by omega
    simp [check_milestones_run, MILESTONE_ANNOUNCES, milestoneStepRun,
      init_user_milestones_field, h10, h25, h50, h100, h250, h500, h1000]

/-- C9 witness: the milestone theorem at an `init_user` account reaching
its 10th success (KeyError) and at one with 9 successes (clean empty
result). -/
theorem C9_milestones_witness :
    check_milestones_run 10 init_user_milestones_field
      = Except.error "KeyError: milestones_reached" ∧
    check_milestones_run 9 init_user_milestones_field
      = Except.ok (none, []) := by
  have h1 := C9_milestones_idempotent_but_key_missing 10 []
  have h2 := C9_milestones_idempotent_but_key_missing 9 []
  exact ⟨h1.2.2.2.1 (by decide), h2.2.2.2.2 (by decide)⟩

/-! ## Claim C10 — challenge reissue (confirmed) -/

/-- C10: for a non-blacklisted account with a pending challenge, issuing
a new one unconditionally replaces it: the stored challenge is exactly
the freshly sampled sequence (4 distinct symbols from the palette of 8)
with `expires_at = now + 300` and `attempts = 0` — the old challenge,
whatever its attempt count, does not carry over — and the blacklist
timestamp is untouched. -/
theorem C10_reissue_replaces_challenge (st : VerifState) (now : ℚ)
    (sample : List ℕ) (code : ℕ) (old : Verification)
    (_hpend : st.pending = some old)
    (hbl : ¬ now < st.blacklisted_until)
    (_hlen : sample.length = 4) (_hnd : sample.Nodup)
    (_hpal : ∀ x ∈ sample, x ∈ emojiPalette) :
    (create_verification st now sample code).1.pending
      = some ⟨sample, code, now + 300, 0⟩ ∧
    (create_verification st now sample code).2 = some sample ∧
    (create_verification st now sample code).1.blacklisted_until
      = st.blacklisted_until := by
  refine ⟨?_, ?_, ?_⟩ <;> simp [create_verification, VERIFICATION_TIMEOUT, hbl]

/-- C10 witness: reissue over a pending challenge with 2 burnt attempts —
the replacement has attempt counter 0 and expiry 100 + 300. -/
theorem C10_reissue_witness :
    (create_verification ⟨some ⟨[0], 1, 50, 2⟩, 0⟩ 100 [3, 1, 4, 2] 9).1.pending
      = some ⟨[3, 1, 4, 2], 9, 100 + 300, 0⟩ := by
  have h := C10_reissue_replaces_challenge ⟨some ⟨[0], 1, 50, 2⟩, 0⟩ 100
    [3, 1, 4, 2] 9 ⟨[0], 1, 50, 2⟩ rfl (by norm_num) (by decide) (by decide)
    (by decide)
  exact h.1

end Roombot
